import Mathlib

/-!
Verification of the receipt-verification pipeline of the confirmit server
(NestJS).  We shallowly embed the JavaScript values flowing through
`ReceiptsService` (src/modules/receipts/receipts.service.ts) together with
the sanitizer `stripUndefinedDeep`, the sidecar split performed by
`analyzeReceiptAsync`, the job-record writes, the progress events of
`ReceiptsGateway`, and the `anchorReceiptToHedera` endpoint, and prove or
refute the specified properties.
-/

mutual
/-- A JavaScript/JSON value as handled by the pipeline.  `undef` is the
JavaScript `undefined`, `jnull` is `null`.  `serialized v` models a string
whose contents are exactly `JSON.stringify` of `v` (the code produces such
strings with `JSON.stringify` and recovers them with `JSON.parse`); a plain
`str s` models a string that is not valid JSON, so `JSON.parse` throws on
it.  Arrays and objects carry their own list types so that all functions
below are structurally recursive and kernel-evaluable. -/
inductive JSVal : Type where
  | undef : JSVal
  | jnull : JSVal
  | bool (b : Bool) : JSVal
  | num (n : Int) : JSVal
  | str (s : String) : JSVal
  | serialized (v : JSVal) : JSVal
  | arr (elems : JSList) : JSVal
  | obj (fields : JSFields) : JSVal
deriving DecidableEq

/-- A JavaScript array of values. -/
inductive JSList : Type where
  | nil : JSList
  | cons (head : JSVal) (tail : JSList) : JSList
deriving DecidableEq

/-- The ordered fields of a JavaScript object. -/
inductive JSFields : Type where
  | nil : JSFields
  | cons (key : String) (val : JSVal) (tail : JSFields) : JSFields
deriving DecidableEq
end

namespace JSList

/-- Number of elements of an array. -/
def length : JSList → Nat
  | nil => 0
  | cons _ t => t.length + 1

/-- `Array.prototype.slice(0, n)`: the first `n` elements. -/
def take : Nat → JSList → JSList
  | 0, _ => nil
  | _, nil => nil
  | n + 1, cons x t => cons x (take n t)

end JSList

namespace JSVal

/-- Whether the value is a JavaScript array (`Array.isArray`). -/
def isArr : JSVal → Bool
  | arr _ => true
  | _ => false

/-- Whether the value is a JavaScript string (`typeof v === 'string'`);
`serialized` values are strings. -/
def isStr : JSVal → Bool
  | str _ => true
  | serialized _ => true
  | _ => false

/-- Whether the value is `null` or `undefined`. -/
def isNullOrUndef : JSVal → Bool
  | jnull => true
  | undef => true
  | _ => false

/-- JavaScript truthiness.  `undefined`, `null`, `false`, `0` and the empty
string are falsy; arrays and objects (even empty) are truthy.  A
`serialized` value is a nonempty string (`JSON.stringify` never returns an
empty string), hence truthy. -/
def isTruthy : JSVal → Bool
  | undef => false
  | jnull => false
  | bool b => b
  | num n => n != 0
  | str s => s != ""
  | serialized _ => true
  | arr _ => true
  | obj _ => true

end JSVal

/-- JavaScript `a || b`: `a` if truthy, else `b`. -/
def jsOr (a b : JSVal) : JSVal := if a.isTruthy then a else b

/-- Property read `v[k]` for the uses in the pipeline: the first field with
the given key of an object, `undefined` otherwise. -/
def getField : JSVal → String → JSVal
  | JSVal.obj fs, k => go fs k
  | _, _ => JSVal.undef
where
  go : JSFields → String → JSVal
  | JSFields.nil, _ => JSVal.undef
  | JSFields.cons key v t, k => if key = k then v else go t k

/-- Whether an object value has a field with the given key. -/
def hasField (v : JSVal) (k : String) : Bool :=
  match v with
  | JSVal.obj fs => go fs k
  | _ => false
where
  go : JSFields → String → Bool
  | JSFields.nil, _ => false
  | JSFields.cons key _ t, k => key = k || go t k

/-- The keys that `stripUndefinedDeep` skips entirely ("too large for
Firestore"): `['heatmap', 'pixel_diff', 'ela_analysis']`. -/
def oversizedKeys : List String := ["heatmap", "pixel_diff", "ela_analysis"]

/-- The keys whose non-string values `stripUndefinedDeep` compresses with
`JSON.stringify`: `['technical_details', 'forensic_findings', 'agent_logs']`. -/
def compressKeys : List String := ["technical_details", "forensic_findings", "agent_logs"]

mutual
/- The sanitizer and its array/object companions are mutually recursive. -/
/-- The sanitizer `stripUndefinedDeep` of receipts.service.ts: `undefined`
and `null` map to `null`; primitives are returned unchanged; an array whose
first element is an array is `JSON.stringify`-ed; other arrays are cleaned
elementwise and their `null`/`undefined` elements are filtered out; in
objects, `undefined`-valued fields and the `oversizedKeys` are dropped, the
`compressKeys` are stringified (truthy non-string), kept (truthy string) or
dropped (falsy), and all other fields are cleaned recursively. -/
def stripUndefinedDeep : JSVal → JSVal
  | JSVal.undef => JSVal.jnull
  | JSVal.jnull => JSVal.jnull
  | JSVal.bool b => JSVal.bool b
  | JSVal.num n => JSVal.num n
  | JSVal.str s => JSVal.str s
  | JSVal.serialized v => JSVal.serialized v
  | JSVal.arr xs =>
    match xs with
    | JSList.cons (JSVal.arr ys) t =>
      JSVal.serialized (JSVal.arr (JSList.cons (JSVal.arr ys) t))
    | _ => JSVal.arr (stripList xs)
  | JSVal.obj fs => JSVal.obj (stripFields fs)

/-- Elementwise cleaning of an array: map `stripUndefinedDeep`, then filter
out elements that became `null` (the code filters `null` and `undefined`;
the sanitizer never returns `undefined`). -/
def stripList : JSList → JSList
  | JSList.nil => JSList.nil
  | JSList.cons x t =>
    let c := stripUndefinedDeep x
    if c.isNullOrUndef then stripList t else JSList.cons c (stripList t)

/-- Field-wise cleaning of an object, in key order. -/
def stripFields : JSFields → JSFields
  | JSFields.nil => JSFields.nil
  | JSFields.cons k v t =>
    if v = JSVal.undef then stripFields t
    else if oversizedKeys.contains k then stripFields t
    else if compressKeys.contains k then
      (if v.isTruthy && !v.isStr then JSFields.cons k (JSVal.serialized v) (stripFields t)
       else if v.isTruthy then JSFields.cons k v (stripFields t)
       else stripFields t)
    else JSFields.cons k (stripUndefinedDeep v) (stripFields t)
end

mutual
/-- `JSON.parse(JSON.stringify(v))`: drops `undefined`-valued object
fields, turns `undefined` array elements into `null`, and leaves
everything else (including strings holding serialized JSON) unchanged. -/
def jsonRound : JSVal → JSVal
  | JSVal.undef => JSVal.jnull
  | JSVal.jnull => JSVal.jnull
  | JSVal.bool b => JSVal.bool b
  | JSVal.num n => JSVal.num n
  | JSVal.str s => JSVal.str s
  | JSVal.serialized v => JSVal.serialized v
  | JSVal.arr xs => JSVal.arr (jsonRoundList xs)
  | JSVal.obj fs => JSVal.obj (jsonRoundFields fs)

/-- JSON round trip of array elements. -/
def jsonRoundList : JSList → JSList
  | JSList.nil => JSList.nil
  | JSList.cons x t => JSList.cons (jsonRound x) (jsonRoundList t)

/-- JSON round trip of object fields. -/
def jsonRoundFields : JSFields → JSFields
  | JSFields.nil => JSFields.nil
  | JSFields.cons k v t =>
    if v = JSVal.undef then jsonRoundFields t
    else JSFields.cons k (jsonRound v) (jsonRoundFields t)
end

/-- The `safeParse` helper of `analyzeReceiptAsync`: on a string that is
valid JSON (modelled by `serialized`) it returns the parsed value; on any
other input (including strings that fail to parse) it returns the input. -/
def safeParse : JSVal → JSVal
  | JSVal.serialized v => jsonRound v
  | v => v

/-- Build a `JSList` from a Lean list. -/
def listOf : List JSVal → JSList
  | [] => JSList.nil
  | x :: t => JSList.cons x (listOf t)

/-- Build a JavaScript array literal. -/
def arrOf (l : List JSVal) : JSVal := JSVal.arr (listOf l)

/-- Build a `JSFields` from a Lean list of key/value pairs. -/
def fieldsOf : List (String × JSVal) → JSFields
  | [] => JSFields.nil
  | (k, v) :: t => JSFields.cons k v (fieldsOf t)

/-- Build a JavaScript object literal. -/
def objOf (l : List (String × JSVal)) : JSVal := JSVal.obj (fieldsOf l)

/-- JSON string escaping of one character. -/
def escChar (c : Char) : List Char :=
  if c = '"' then ['\\', '"'] else if c = '\\' then ['\\', '\\'] else [c]

/-- JSON string escaping. -/
def escapeJson (s : String) : String :=
  String.mk (s.data.foldr (fun c acc => escChar c ++ acc) [])

/-- A JSON string literal: quote and escape. -/
def quoteJson (s : String) : String := "\"" ++ escapeJson s ++ "\""

mutual
/-- `JSON.stringify`, used by the pipeline to measure payload size.
`undefined` only reaches this function in array positions, where
`JSON.stringify` renders it as `null`. -/
def stringifyVal : JSVal → String
  | JSVal.undef => "null"
  | JSVal.jnull => "null"
  | JSVal.bool b => if b then "true" else "false"
  | JSVal.num n => toString n
  | JSVal.str s => quoteJson s
  | JSVal.serialized v => quoteJson (stringifyVal v)
  | JSVal.arr xs => "[" ++ stringifyList xs ++ "]"
  | JSVal.obj fs => "\x7b" ++ stringifyFields fs ++ "\x7d"

/-- Comma-joined renderings of array elements. -/
def stringifyList : JSList → String
  | JSList.nil => ""
  | JSList.cons x JSList.nil => stringifyVal x
  | JSList.cons x (JSList.cons y t) =>
    stringifyVal x ++ "," ++ stringifyList (JSList.cons y t)

/-- Comma-joined renderings of object fields; `undefined`-valued fields are
skipped, as `JSON.stringify` does. -/
def stringifyFields : JSFields → String
  | JSFields.nil => ""
  | JSFields.cons k v t =>
    if v = JSVal.undef then stringifyFields t
    else
      let entry := quoteJson k ++ ":" ++ stringifyVal v
      let rest := stringifyFields t
      if rest = "" then entry else entry ++ "," ++ rest
end

/-- `JSON.stringify(v).length`, the size measure checked against the
Firestore limit. -/
def jsonSize (v : JSVal) : Nat := (stringifyVal v).length

/-- Whether `pat` occurs at the start of `s`. -/
def headMatches : List Char → List Char → Bool
  | [], _ => true
  | _ :: _, [] => false
  | a :: as, b :: bs => a = b && headMatches as bs

/-- Whether `pat` occurs anywhere in `s` (JavaScript `includes`). -/
def containsSub : List Char → List Char → Bool
  | s, pat =>
    headMatches pat s ||
      match s with
      | [] => false
      | _ :: t => containsSub t pat

/-- `message.includes(pattern)` on strings. -/
def hasSub (s pat : String) : Bool := containsSub s.data pat.data

def timeoutTok : String := "timeout"
def unavailableTok : String := "unavailable"
def econnrefusedTok : String := "ECONNREFUSED"
def invalidImageTok : String := "invalid image"
def formatTok : String := "format"
def tooLargeTok : String := "too large"
def exceedsTok : String := "exceeds"
def unknownErrorMsg : String := "Unknown error"
def timeoutFriendly : String :=
  "Analysis timed out. The image might be too large. Please try a smaller image."
def unavailableFriendly : String :=
  "Service temporarily unavailable. Please try again in a few minutes."
def invalidImageFriendly : String :=
  "Invalid image format. Please upload a JPG, PNG, or PDF file."
def tooLargeFriendly : String :=
  "Analysis data is too large to store. This is a system limitation we are working to resolve."

/-- `getUserFriendlyError` of receipts.service.ts: maps a technical error
message to a user-facing one by substring matching. -/
def getUserFriendlyError (msg : String) : String :=
  let m := if msg = "" then unknownErrorMsg else msg
  if hasSub m timeoutTok then timeoutFriendly
  else if hasSub m unavailableTok || hasSub m econnrefusedTok then unavailableFriendly
  else if hasSub m invalidImageTok || hasSub m formatTok then invalidImageFriendly
  else if hasSub m tooLargeTok || hasSub m exceedsTok then tooLargeFriendly
  else m

def forensicDetailsKey : String := "forensic_details"
def agentLogsKey : String := "agent_logs"
def forensicFindingsKey : String := "forensic_findings"
def technicalDetailsKey : String := "technical_details"
def heatmapKey : String := "heatmap"
def pixelDiffKey : String := "pixel_diff"
def elaAnalysisKey : String := "ela_analysis"
def forensicProgressKey : String := "forensic_progress"
def ocrConfidenceKey : String := "ocr_confidence"
def manipulationScoreKey : String := "manipulation_score"
def metadataFlagsKey : String := "metadata_flags"
def forensicVerdictKey : String := "forensic_verdict"
def forensicSummaryKey : String := "forensic_summary"
def suspiciousRegionsCountKey : String := "suspicious_regions_count"
def manipulationDetectedKey : String := "manipulation_detected"
def techniquesDetectedKey : String := "techniques_detected"
def authenticityIndicatorsKey : String := "authenticity_indicators"
def forensicFindingsFullKey : String := "forensic_findings_full"
def imageDimensionsKey : String := "image_dimensions"
def statisticsKey : String := "statistics"
def ocrTextKey : String := "ocr_text"
def trustScoreKey : String := "trust_score"
def verdictKey : String := "verdict"
def issuesKey : String := "issues"
def recommendationKey : String := "recommendation"
def merchantKey : String := "merchant"
def processingTimeKey : String := "processing_time"
def statusKey : String := "status"
def analysisKey : String := "analysis"
def errorKey : String := "error"
def hederaAnchorKey : String := "hedera_anchor"
def unknownVerdict : String := "unknown"
def emptyString : String := ""
def completedStatus : String := "completed"
def failedStatus : String := "failed"
def processingStatus : String := "processing"

/-- The Firestore per-document size limit checked by the pipeline. -/
def firestoreLimit : Nat := 1048576

/-- The `throw new Error` message raised when the main payload is too
large; the code interpolates the size in KB, the decisive part for error
classification is the word `exceeds`. -/
def payloadTooLargeMessage (n : Nat) : String :=
  "Main payload size " ++ toString n ++ " exceeds Firestore 1MB limit"

/-- `Array.isArray(v) ? v.slice(0, 5) : v` — the summary excerpt of the
findings list. -/
def sliceFive : JSVal → JSVal
  | JSVal.arr xs => JSVal.arr (JSList.take 5 xs)
  | v => v

/-- LAYER 1 and LAYER 2 of `analyzeReceiptAsync`: sanitize the raw
analyzer result with `stripUndefinedDeep`, then JSON round-trip it. -/
def step2Of (raw : JSVal) : JSVal := jsonRound (stripUndefinedDeep raw)

/-- `const forensicDetails = step2.forensic_details || {}`. -/
def fd0Of (raw : JSVal) : JSVal := jsOr (getField (step2Of raw) forensicDetailsKey) (objOf [])

/-- `const agentLogs = safeParse(step2.agent_logs) || []`. -/
def agentLogsOf (raw : JSVal) : JSVal :=
  jsOr (safeParse (getField (step2Of raw) agentLogsKey)) (arrOf [])

/-- `forensicDetails.forensic_findings = safeParse(...) || []` (LAYER 3). -/
def ffOf (raw : JSVal) : JSVal :=
  jsOr (safeParse (getField (fd0Of raw) forensicFindingsKey)) (arrOf [])

/-- `forensicDetails.technical_details = safeParse(...) || {}` (LAYER 3). -/
def tdOf (raw : JSVal) : JSVal :=
  jsOr (safeParse (getField (fd0Of raw) technicalDetailsKey)) (objOf [])

/-- `forensicDetails.heatmap = safeParse(...) || []` (LAYER 3). -/
def hmOf (raw : JSVal) : JSVal :=
  jsOr (safeParse (getField (fd0Of raw) heatmapKey)) (arrOf [])

/-- `forensicDetails.pixel_diff = safeParse(...) || {}` (LAYER 3). -/
def pdOf (raw : JSVal) : JSVal :=
  jsOr (safeParse (getField (fd0Of raw) pixelDiffKey)) (objOf [])

/-- `forensicDetails.forensic_progress = safeParse(...) || []` (LAYER 3). -/
def fpOf (raw : JSVal) : JSVal :=
  jsOr (safeParse (getField (fd0Of raw) forensicProgressKey)) (arrOf [])

/-- The `lightForensics` object of LAYER 4: summary-sized forensic
indicators, with the findings list cut to its first 5 entries. -/
def lightForensicsOf (raw : JSVal) : JSVal := objOf [
  (ocrConfidenceKey, getField (fd0Of raw) ocrConfidenceKey),
  (manipulationScoreKey, getField (fd0Of raw) manipulationScoreKey),
  (metadataFlagsKey, getField (fd0Of raw) metadataFlagsKey),
  (forensicVerdictKey, getField (fd0Of raw) forensicVerdictKey),
  (forensicSummaryKey, getField (fd0Of raw) forensicSummaryKey),
  (suspiciousRegionsCountKey, getField (fd0Of raw) suspiciousRegionsCountKey),
  (manipulationDetectedKey, getField (fd0Of raw) manipulationDetectedKey),
  (techniquesDetectedKey, getField (fd0Of raw) techniquesDetectedKey),
  (authenticityIndicatorsKey, getField (fd0Of raw) authenticityIndicatorsKey),
  (forensicFindingsKey, sliceFive (ffOf raw)),
  (agentLogsKey, agentLogsOf raw),
  (forensicProgressKey, jsOr (fpOf raw) (arrOf []))]

/-- The `sidecarData` object of LAYER 4 ("Heavy Forensic Data"). -/
def sidecarPayloadOf (raw : JSVal) : JSVal := objOf [
  (heatmapKey, jsOr (hmOf raw) (arrOf [])),
  (pixelDiffKey, jsOr (pdOf raw) (objOf [])),
  (technicalDetailsKey, jsOr (tdOf raw) (objOf [])),
  (elaAnalysisKey, jsOr (getField (fd0Of raw) elaAnalysisKey) (objOf [])),
  (agentLogsKey, agentLogsOf raw),
  (forensicProgressKey, jsOr (fpOf raw) (arrOf [])),
  (forensicFindingsFullKey, jsOr (ffOf raw) (arrOf [])),
  (imageDimensionsKey, getField (fd0Of raw) imageDimensionsKey),
  (statisticsKey, getField (fd0Of raw) statisticsKey)]

/-- The `mainPayload` object of LAYER 4 (the lightweight summary document);
`pt` is the computed `processing_time`. -/
def mainPayloadOf (pt : Int) (raw : JSVal) : JSVal := objOf [
  (ocrTextKey, jsOr (getField (step2Of raw) ocrTextKey) (JSVal.str emptyString)),
  (analysisKey, objOf [
    (trustScoreKey, jsOr (getField (step2Of raw) trustScoreKey) (JSVal.num 0)),
    (verdictKey, jsOr (getField (step2Of raw) verdictKey) (JSVal.str unknownVerdict)),
    (issuesKey, jsOr (getField (step2Of raw) issuesKey) (arrOf [])),
    (recommendationKey, jsOr (getField (step2Of raw) recommendationKey) (JSVal.str emptyString)),
    (merchantKey, jsOr (getField (step2Of raw) merchantKey) JSVal.jnull),
    (forensicDetailsKey, lightForensicsOf raw)]),
  (processingTimeKey, JSVal.num pt),
  (statusKey, JSVal.str completedStatus)]

/-- LAYER 5: `const cleanedMain = stripUndefinedDeep(mainPayload)`. -/
def cleanedMainOf (pt : Int) (raw : JSVal) : JSVal :=
  stripUndefinedDeep (mainPayloadOf pt raw)

/-- LAYER 5: `const cleanedSidecar = stripUndefinedDeep(sidecarData)`. -/
def cleanedSidecarOf (raw : JSVal) : JSVal :=
  stripUndefinedDeep (sidecarPayloadOf raw)

/-- LAYERS 1-5 of `analyzeReceiptAsync` plus the size guard: returns the
cleaned `(main, sidecar)` pair to be written atomically, or the
payload-too-large error thrown before any write when the serialized main
payload exceeds the Firestore limit. -/
def splitPipeline (pt : Int) (raw : JSVal) : Except String (JSVal × JSVal) :=
  if jsonSize (cleanedMainOf pt raw) > firestoreLimit then
    Except.error (payloadTooLargeMessage (jsonSize (cleanedMainOf pt raw)))
  else Except.ok (cleanedMainOf pt raw, cleanedSidecarOf raw)

def uploadingPhase : String := "uploading"
def uploadCompletePhase : String := "upload_complete"
def ocrStartedPhase : String := "ocr_started"
def forensicsRunningPhase : String := "forensics_running"
def analysisCompletePhase : String := "analysis_complete"
def hederaAnchoringPhase : String := "hedera_anchoring"
def hederaAnchoredPhase : String := "hedera_anchored"
def completePhase : String := "complete"
def uploadingMsg : String := "Starting upload..."
def uploadCompleteMsg : String := "Image uploaded successfully"
def ocrStartedMsg : String := "Extracting text with AI..."
def forensicsRunningMsg : String := "Running forensic analysis..."
def analysisCompleteMsg : String := "Analysis complete!"
def hederaAnchoringMsg : String := "Anchoring to blockchain..."
def hederaAnchoredMsg : String := "Verified on blockchain!"
def completeMsg : String := "Verification complete!"
def alreadyAnchoredMsg : String := "Receipt already anchored"
def anchorSuccessMsg : String := "Successfully anchored to Hedera"

/-- The claim-relevant fields of the Firestore job (receipt) document.
`error = none` models the `error` field being absent (it is never written
as an explicit null); `ocr_text`/`processing_time` use `JSVal.undef` for
"field absent". -/
structure Receipt where
  status : String
  analysis : JSVal
  hedera_anchor : JSVal
  error : Option String
  ocr_text : JSVal
  processing_time : JSVal
deriving DecidableEq

/-- The job document created by `scanReceipt`: `status='processing'`,
`analysis=null`, `hedera_anchor=null`, no `error` field. -/
def initialReceipt : Receipt :=
  { status := processingStatus
    analysis := JSVal.jnull
    hedera_anchor := JSVal.jnull
    error := none
    ocr_text := JSVal.undef
    processing_time := JSVal.undef }

/-- Read a string-valued field out of a `JSVal`. -/
def asString : JSVal → String
  | JSVal.str s => s
  | _ => emptyString

/-- `batch.set(receiptRef, cleanedMain, { merge: true })`: each top-level
field present in `cleanedMain` replaces the corresponding document field;
absent fields are left untouched. -/
def mergeMainReceipt (r : Receipt) (m : JSVal) : Receipt :=
  { status := if hasField m statusKey then asString (getField m statusKey) else r.status
    analysis := if hasField m analysisKey then getField m analysisKey else r.analysis
    hedera_anchor := if hasField m hederaAnchorKey then getField m hederaAnchorKey else r.hedera_anchor
    error := if hasField m errorKey then some (asString (getField m errorKey)) else r.error
    ocr_text := if hasField m ocrTextKey then getField m ocrTextKey else r.ocr_text
    processing_time :=
      if hasField m processingTimeKey then getField m processingTimeKey else r.processing_time }

/-- One observable step of a job: a Progress-Channel emission or a
Firestore write on the job document (plus its sidecar). -/
inductive JobAction : Type where
  | progress (percent : Nat) (phase : String) (message : String)
  | complete
  | errored (message : String)
  | writeCreate (r : Receipt)
  | writeBatch (main sidecar : JSVal)
  | writeAnchor (anchor : JSFields)
  | writeFail (message : String)
deriving DecidableEq

/-- Effect of an action on the job document (emissions do not change it). -/
def applyAction (r : Receipt) : JobAction → Receipt
  | JobAction.writeCreate r0 => r0
  | JobAction.writeBatch m _ => mergeMainReceipt r m
  | JobAction.writeAnchor fs => { r with hedera_anchor := JSVal.obj fs }
  | JobAction.writeFail msg => { r with status := failedStatus, error := some msg }
  | _ => r

/-- Apply a sequence of actions to the job document. -/
def applyActions (r : Receipt) (l : List JobAction) : Receipt := l.foldl applyAction r

/-- The environment outcomes a run of `analyzeReceiptAsync` depends on:
the analyzer call (`Except.error` carries the message of the error thrown
by the inner catch), whether anchoring was requested, the Ledger Anchor
Client outcome (its result object, or the message of the rethrown error),
and the computed `processing_time`. -/
structure AnalyzeParams where
  aiResult : Except String JSVal
  anchorOnHedera : Bool
  anchorResult : Except String JSFields
  processingTime : Int

/-- The background task `analyzeReceiptAsync`, as the final job document
and the ordered list of emissions and writes it performs, for a given
starting document.  Any exception (analyzer failure, payload-too-large,
anchoring failure) reaches the single catch block, which writes
`status='failed'` with the classified message and emits the error event. -/
def analyzeReceiptAsync (p : AnalyzeParams) (r : Receipt) : Receipt × List JobAction :=
  let pre := [JobAction.progress 20 ocrStartedPhase ocrStartedMsg,
              JobAction.progress 40 forensicsRunningPhase forensicsRunningMsg]
  match p.aiResult with
  | Except.error e =>
    let uf := getUserFriendlyError e
    (applyAction r (JobAction.writeFail uf),
     pre ++ [JobAction.writeFail uf, JobAction.errored uf])
  | Except.ok raw =>
    let pre2 := pre ++ [JobAction.progress 80 analysisCompletePhase analysisCompleteMsg]
    match splitPipeline p.processingTime raw with
    | Except.error msg =>
      let uf := getUserFriendlyError msg
      (applyAction r (JobAction.writeFail uf),
       pre2 ++ [JobAction.writeFail uf, JobAction.errored uf])
    | Except.ok (m, s) =>
      let r1 := mergeMainReceipt r m
      let t1 := pre2 ++ [JobAction.writeBatch m s]
      if p.anchorOnHedera then
        match p.anchorResult with
        | Except.error e =>
          let uf := getUserFriendlyError e
          (applyAction r1 (JobAction.writeFail uf),
           t1 ++ [JobAction.progress 90 hederaAnchoringPhase hederaAnchoringMsg,
                  JobAction.writeFail uf, JobAction.errored uf])
        | Except.ok a =>
          ({ r1 with hedera_anchor := JSVal.obj a },
           t1 ++ [JobAction.progress 90 hederaAnchoringPhase hederaAnchoringMsg,
                  JobAction.writeAnchor a,
                  JobAction.progress 100 hederaAnchoredPhase hederaAnchoredMsg,
                  JobAction.complete])
      else
        (r1, t1 ++ [JobAction.progress 100 completePhase completeMsg, JobAction.complete])

/-- `scanReceipt` for a job whose blob upload succeeded (a job record only
exists in that case): the intake emissions, the creation of the document,
and then the background task. -/
def scanReceipt (p : AnalyzeParams) : Receipt × List JobAction :=
  let t0 := [JobAction.progress 5 uploadingPhase uploadingMsg,
             JobAction.progress 15 uploadCompletePhase uploadCompleteMsg,
             JobAction.writeCreate initialReceipt]
  let res := analyzeReceiptAsync p initialReceipt
  (res.1, t0 ++ res.2)

/-- The finalized job document of a (created) job. -/
def jobFinal (p : AnalyzeParams) : Receipt := (scanReceipt p).1

/-- The event/write trace of a (created) job. -/
def jobTrace (p : AnalyzeParams) : List JobAction := (scanReceipt p).2

/-- Whether an action is a Firestore write. -/
def isWriteAction : JobAction → Bool
  | JobAction.writeCreate _ => true
  | JobAction.writeBatch _ _ => true
  | JobAction.writeAnchor _ => true
  | JobAction.writeFail _ => true
  | _ => false

/-- The writes a job performs, in order. -/
def jobWrites (p : AnalyzeParams) : List JobAction :=
  (jobTrace p).filter isWriteAction

/-- Whether an action is a terminal Progress-Channel event
(`complete` or `error`). -/
def isTerminalEvent : JobAction → Bool
  | JobAction.complete => true
  | JobAction.errored _ => true
  | _ => false

/-- Whether a write sets a terminal job status (`completed` via the batch
write, or `failed`). -/
def setsTerminalStatus : JobAction → Bool
  | JobAction.writeBatch _ _ => true
  | JobAction.writeFail _ => true
  | _ => false

/-- The `percent` values of the progress events of a trace, in order. -/
def percentsOf : List JobAction → List Nat
  | [] => []
  | JobAction.progress p _ _ :: t => p :: percentsOf t
  | _ :: t => percentsOf t

/-- Whether a list of percent values is non-decreasing. -/
def nondecreasing : List Nat → Bool
  | [] => true
  | [_] => true
  | a :: b :: t => a ≤ b && nondecreasing (b :: t)

/-- The temporal property of one job trace: percents are non-decreasing,
there is exactly one terminal event, it is the last action of the trace,
and a terminal job-record write occurs strictly before it. -/
def goodTrace (l : List JobAction) : Bool :=
  nondecreasing (percentsOf l) &&
  ((l.filter isTerminalEvent).length == 1) &&
  (match l.getLast? with
   | some a => isTerminalEvent a
   | none => false) &&
  l.dropLast.any setsTerminalStatus &&
  l.dropLast.all (fun a => !isTerminalEvent a)

/-- Outcome of one call of the `anchorReceiptToHedera` endpoint: the value
returned to the controller (or the rethrown error message), the job
document afterwards, and the argument the Ledger Anchor Client was invoked
on (`none` when it was not called). -/
structure AnchorCallResult where
  response : Except String (String × JSVal)
  record : Receipt
  clientCalledWith : Option JSVal

/-- `anchorReceiptToHedera` of receipts.service.ts, for an existing job
document: if `hedera_anchor` is truthy, return the already-anchored success
without calling the client and without writing; otherwise call
`hederaService.anchorToHCS(receiptId, receiptData.analysis)` and either
write the returned anchor into the document and return success, or (on a
client failure) rethrow, leaving the document unchanged. -/
def anchorReceiptToHedera (r : Receipt) (clientResult : Except String JSFields) :
    AnchorCallResult :=
  if r.hedera_anchor.isTruthy then
    { response := Except.ok (alreadyAnchoredMsg, r.hedera_anchor)
      record := r
      clientCalledWith := none }
  else
    match clientResult with
    | Except.ok a =>
      { response := Except.ok (anchorSuccessMsg, JSVal.obj a)
        record := { r with hedera_anchor := JSVal.obj a }
        clientCalledWith := some r.analysis }
    | Except.error e =>
      { response := Except.error e
        record := r
        clientCalledWith := some r.analysis }

/-- The main (summary) payload of a successful split. -/
def mainOf (e : Except String (JSVal × JSVal)) : JSVal :=
  match e with
  | Except.ok (m, _) => m
  | Except.error _ => JSVal.undef

/-- The sidecar payload of a successful split. -/
def sidecarOf (e : Except String (JSVal × JSVal)) : JSVal :=
  match e with
  | Except.ok (_, s) => s
  | Except.error _ => JSVal.undef

/-- Whether a split succeeded. -/
def isOkSplit (e : Except String (JSVal × JSVal)) : Bool :=
  match e with
  | Except.ok _ => true
  | Except.error _ => false

/-- Length of an array value (0 for non-arrays). -/
def jsLen : JSVal → Nat
  | JSVal.arr xs => xs.length
  | _ => 0

mutual
/-- Whether a key occurs anywhere in a value: as an object key at any
depth, including inside serialized strings. -/
def containsKeyDeep : JSVal → String → Bool
  | JSVal.serialized v, k => containsKeyDeep v k
  | JSVal.arr xs, k => containsKeyDeepList xs k
  | JSVal.obj fs, k => containsKeyDeepFields fs k
  | _, _ => false

/-- Key occurrence inside array elements. -/
def containsKeyDeepList : JSList → String → Bool
  | JSList.nil, _ => false
  | JSList.cons x t, k => containsKeyDeep x k || containsKeyDeepList t k

/-- Key occurrence inside object fields. -/
def containsKeyDeepFields : JSFields → String → Bool
  | JSFields.nil, _ => false
  | JSFields.cons key v t, k => key = k || containsKeyDeep v k || containsKeyDeepFields t k
end

/-- Whether no element of an array is `null` or `undefined`. -/
def noNullUndefElems : JSList → Bool
  | JSList.nil => true
  | JSList.cons x t => !x.isNullOrUndef && noNullUndefElems t

/-- Whether the first element of an array is not itself an array (so that
the sanitizer cleans it elementwise instead of stringifying it). -/
def headNotArr : JSList → Bool
  | JSList.nil => true
  | JSList.cons x _ => !x.isArr

mutual
/-- A value none of whose arrays contain `null` or `undefined` elements
(a `serialized` string is atomic for the sanitizer). -/
def niceVal : JSVal → Bool
  | JSVal.arr xs => niceList xs
  | JSVal.obj fs => niceFields fs
  | _ => true

/-- Niceness of array elements: no `null`/`undefined` element, all
elements nice. -/
def niceList : JSList → Bool
  | JSList.nil => true
  | JSList.cons x t => !x.isNullOrUndef && niceVal x && niceList t

/-- Niceness of object field values. -/
def niceFields : JSFields → Bool
  | JSFields.nil => true
  | JSFields.cons _ v t => niceVal v && niceFields t
end

mutual
/-- A value on which the sanitizer is the identity: not `undefined`;
arrays do not start with a nested array, have no `null`/`undefined`
elements and have fixed elements; objects carry none of the
`oversizedKeys`, their `compressKeys` hold truthy strings, and all other
field values are fixed. -/
def fixedVal : JSVal → Bool
  | JSVal.undef => false
  | JSVal.arr xs => headNotArr xs && fixedElems xs
  | JSVal.obj fs => fixedFields fs
  | _ => true

/-- Fixedness of array elements (no `null`/`undefined`, all fixed). -/
def fixedElems : JSList → Bool
  | JSList.nil => true
  | JSList.cons x t => !x.isNullOrUndef && fixedVal x && fixedElems t

/-- Fixedness of object fields: no oversized key; a compress key holds a
truthy string (kept verbatim); any other field value is fixed and not
`undefined`. -/
def fixedFields : JSFields → Bool
  | JSFields.nil => true
  | JSFields.cons k v t =>
    !(oversizedKeys.contains k) &&
    ((compressKeys.contains k && v.isStr && v.isTruthy) ||
     (!(compressKeys.contains k) && !(v == JSVal.undef) && fixedVal v)) &&
    fixedFields t
end

/-- The documented invariant of the job record: `completed` implies a
non-null summary and no error; `failed` implies a recorded error. -/
def recordInvariant (r : Receipt) : Prop :=
  (r.status = completedStatus → r.analysis ≠ JSVal.jnull ∧ r.error = none) ∧
  (r.status = failedStatus → r.error ≠ none)

def hederaFailMsg : String := "Hedera network down"
def note1Msg : String := "note one"
def note2Msg : String := "note two"

/-- A small successful analyzer response. -/
def rawSmall : JSVal := objOf [(trustScoreKey, JSVal.num 92)]

/-- Outcomes forcing the Ledger Anchor Client to fail after a successful
analysis with anchoring requested. -/
def pAnchorFail : AnalyzeParams :=
  { aiResult := Except.ok rawSmall
    anchorOnHedera := true
    anchorResult := Except.error hederaFailMsg
    processingTime := 0 }

/-- An analyzer response carrying all three named oversized fields. -/
def rawOversized : JSVal := objOf [
  (trustScoreKey, JSVal.num 50),
  (forensicDetailsKey, objOf [
    (heatmapKey, arrOf [arrOf [JSVal.num 1, JSVal.num 2], arrOf [JSVal.num 3, JSVal.num 4]]),
    (pixelDiffKey, objOf [(statisticsKey, JSVal.num 7)]),
    (elaAnalysisKey, objOf [(ocrConfidenceKey, JSVal.num 3)]),
    (ocrConfidenceKey, JSVal.num 1)])]

/-- An analyzer response whose findings list has 6 entries, one of them
`null`. -/
def rawSixFindings : JSVal := objOf [
  (forensicDetailsKey, objOf [
    (forensicFindingsKey,
      arrOf [JSVal.jnull, JSVal.num 1, JSVal.num 2, JSVal.num 3, JSVal.num 4, JSVal.num 5])])]

/-- The raw-analyzer shape of the amended excerpt-bound claim: a response
whose forensic details carry exactly a findings array. -/
def rawWithFindings (xs : JSList) : JSVal :=
  objOf [(forensicDetailsKey, objOf [(forensicFindingsKey, JSVal.arr xs)])]

/-- Six findings, none `null`/`undefined`, first entry not an array. -/
def sixFindings : JSList :=
  listOf [JSVal.num 1, JSVal.num 2, JSVal.num 3, JSVal.num 4, JSVal.num 5, JSVal.num 6]

/-- An already-anchored job record. -/
def anchoredReceipt : Receipt :=
  { status := completedStatus
    analysis := objOf [(trustScoreKey, JSVal.num 92)]
    hedera_anchor := objOf [(statusKey, JSVal.str completedStatus)]
    error := none
    ocr_text := JSVal.undef
    processing_time := JSVal.undef }

/-- A still-processing job record with no anchor and a null analysis. -/
def processingReceipt : Receipt := initialReceipt

/-- A sample anchor object returned by the Ledger Anchor Client. -/
def sampleAnchor : JSFields := fieldsOf [(statusKey, JSVal.str completedStatus)]

/-- An input on which the sanitizer is provably idempotent: no array
contains `null`/`undefined` elements. -/
def niceSample : JSVal := objOf [
  (ocrTextKey, JSVal.str note1Msg),
  (issuesKey, arrOf [JSVal.str note2Msg, JSVal.num 3, objOf [(verdictKey, JSVal.jnull)]]),
  (merchantKey, JSVal.jnull)]

/-- The input refuting sanitizer idempotence: cleaning drops the leading
`null`, which moves a nested array into the first position, and the second
pass stringifies the whole array. -/
def badSample : JSVal := arrOf [JSVal.jnull, arrOf [JSVal.num 1]]

theorem stripFields_cons_normal (k : String) (v : JSVal) (t : JSFields) (hv : v ≠ JSVal.undef)
    (h1 : k ∉ oversizedKeys) (h2 : k ∉ compressKeys) :
    stripFields (JSFields.cons k v t) = JSFields.cons k (stripUndefinedDeep v) (stripFields t) := by
  simp [stripFields, hv, h1, h2]

theorem jsOr_ne_undef (x d : JSVal) (hd : d ≠ JSVal.undef) : jsOr x d ≠ JSVal.undef := by
  unfold jsOr
  split
  · rename_i ht
    intro h
    subst h
    simp [JSVal.isTruthy] at ht
  · exact hd

theorem strip_isNullOrUndef (v : JSVal) :
    (stripUndefinedDeep v).isNullOrUndef = v.isNullOrUndef := by
  cases v
  case arr xs =>
    cases xs with
    | nil => rfl
    | cons x t => cases x <;> rfl
  all_goals rfl

theorem strip_isArr (v : JSVal) (h : (stripUndefinedDeep v).isArr = true) : v.isArr = true := by
  cases v
  case arr xs => rfl
  all_goals simp [stripUndefinedDeep, JSVal.isArr] at h

theorem jsonRound_isNullOrUndef (v : JSVal) :
    (jsonRound v).isNullOrUndef = v.isNullOrUndef := by
  cases v <;> rfl

theorem jsonRound_isArr (v : JSVal) : (jsonRound v).isArr = v.isArr := by
  cases v <;> rfl

theorem jsonRoundList_length : ∀ l : JSList, (jsonRoundList l).length = l.length
  | JSList.nil => rfl
  | JSList.cons x t => by
    simp [jsonRoundList, JSList.length, jsonRoundList_length t]

theorem stripList_length_good : ∀ l : JSList, noNullUndefElems l = true →
    (stripList l).length = l.length
  | JSList.nil, _ => rfl
  | JSList.cons x t, h => by
    simp [noNullUndefElems] at h
    simp [stripList, JSList.length, strip_isNullOrUndef, h.1, stripList_length_good t h.2]

theorem noNullUndef_jsonRoundList : ∀ l : JSList,
    noNullUndefElems (jsonRoundList l) = noNullUndefElems l
  | JSList.nil => rfl
  | JSList.cons x t => by
    simp [jsonRoundList, noNullUndefElems, jsonRound_isNullOrUndef,
      noNullUndef_jsonRoundList t]

theorem headNotArr_jsonRoundList (l : JSList) :
    headNotArr (jsonRoundList l) = headNotArr l := by
  cases l with
  | nil => rfl
  | cons x t => simp [jsonRoundList, headNotArr, jsonRound_isArr]

theorem take_length (n : Nat) : ∀ l : JSList, (JSList.take n l).length = min n l.length := by
  induction n with
  | zero => intro l; simp [JSList.take, JSList.length]
  | succ n ih =>
    intro l
    cases l with
    | nil => simp [JSList.take, JSList.length]
    | cons x t =>
      simp [JSList.take, JSList.length, ih t]
      omega

theorem splitPipeline_ok {pt : Int} {raw m s : JSVal}
    (h : splitPipeline pt raw = Except.ok (m, s)) :
    m = cleanedMainOf pt raw ∧ s = cleanedSidecarOf raw ∧ jsonSize m ≤ firestoreLimit := by
  unfold splitPipeline at h
  split at h
  · simp at h
  · rename_i hsize
    simp only [Except.ok.injEq, Prod.mk.injEq] at h
    obtain ⟨hm, hs⟩ := h
    subst hm
    subst hs
    refine ⟨rfl, rfl, ?_⟩
    omega

theorem cleanedMain_facts (pt : Int) (raw : JSVal) :
    getField (cleanedMainOf pt raw) statusKey = JSVal.str completedStatus ∧
    hasField (cleanedMainOf pt raw) statusKey = true ∧
    (∃ gs, getField (cleanedMainOf pt raw) analysisKey = JSVal.obj gs) ∧
    hasField (cleanedMainOf pt raw) analysisKey = true ∧
    hasField (cleanedMainOf pt raw) errorKey = false ∧
    hasField (cleanedMainOf pt raw) hederaAnchorKey = false := by
  unfold cleanedMainOf mainPayloadOf
  simp only [objOf, fieldsOf]
  simp only [stripUndefinedDeep]
  rw [stripFields_cons_normal _ _ _ (jsOr_ne_undef _ _ (by simp)) (by decide) (by decide)]
  rw [stripFields_cons_normal _ _ _ (by simp) (by decide) (by decide)]
  rw [stripFields_cons_normal _ _ _ (by simp) (by decide) (by decide)]
  rw [stripFields_cons_normal _ _ _ (by simp) (by decide) (by decide)]
  simp [getField, getField.go, hasField, hasField.go, stripUndefinedDeep,
    ocrTextKey, analysisKey, processingTimeKey, statusKey, errorKey, hederaAnchorKey]

theorem mergeMain_facts (r : Receipt) (pt : Int) (raw : JSVal) :
    (mergeMainReceipt r (cleanedMainOf pt raw)).status = completedStatus ∧
    (mergeMainReceipt r (cleanedMainOf pt raw)).analysis ≠ JSVal.jnull ∧
    (mergeMainReceipt r (cleanedMainOf pt raw)).error = r.error ∧
    (mergeMainReceipt r (cleanedMainOf pt raw)).hedera_anchor = r.hedera_anchor := by
  obtain ⟨hst, hhst, ⟨gs, han⟩, hhan, herr, hhed⟩ := cleanedMain_facts pt raw
  unfold mergeMainReceipt
  simp [hst, hhst, han, hhan, herr, hhed, asString]

/-- C6 counterexample: the claim "null values are preserved at any nesting
depth" is false — the sanitizer drops a `null` array element (`[null]`
becomes `[]`). -/
theorem C6_null_in_array_counterexample :
    stripUndefinedDeep (arrOf [JSVal.jnull]) = arrOf [] ∧
    arrOf [] ≠ arrOf [JSVal.jnull] := by decide

/-- C6 amended: `undefined`-valued object fields are dropped; `null`-valued
object fields outside the special-cased key sets are preserved as `null`;
inside arrays both `undefined` and `null` elements are removed; a directly
`undefined` value is returned as `null`. -/
theorem C6_sanitizer_null_handling (k : String) (fs : JSFields) (t : JSList)
    (h1 : k ∉ oversizedKeys) (h2 : k ∉ compressKeys) :
    stripUndefinedDeep (JSVal.obj (JSFields.cons k JSVal.undef fs)) =
      stripUndefinedDeep (JSVal.obj fs) ∧
    stripFields (JSFields.cons k JSVal.jnull fs) =
      JSFields.cons k JSVal.jnull (stripFields fs) ∧
    stripList (JSList.cons JSVal.undef t) = stripList t ∧
    stripList (JSList.cons JSVal.jnull t) = stripList t ∧
    stripUndefinedDeep JSVal.undef = JSVal.jnull := by
  refine ⟨?_, ?_, ?_, ?_, rfl⟩
  · simp [stripUndefinedDeep, stripFields]
  · rw [stripFields_cons_normal _ _ _ (by simp) h1 h2]
    rfl
  · simp [stripList, stripUndefinedDeep, JSVal.isNullOrUndef]
  · simp [stripList, stripUndefinedDeep, JSVal.isNullOrUndef]

/-- Witness for the amended C6 statement at the key `ocr_text` and
singleton containers. -/
theorem C6_sanitizer_null_handling_witness :
    ocrTextKey ∉ oversizedKeys ∧ ocrTextKey ∉ compressKeys ∧
    (stripUndefinedDeep (JSVal.obj (JSFields.cons ocrTextKey JSVal.undef JSFields.nil)) =
        stripUndefinedDeep (JSVal.obj JSFields.nil) ∧
      stripFields (JSFields.cons ocrTextKey JSVal.jnull JSFields.nil) =
        JSFields.cons ocrTextKey JSVal.jnull (stripFields JSFields.nil) ∧
      stripList (JSList.cons JSVal.undef JSList.nil) = stripList JSList.nil ∧
      stripList (JSList.cons JSVal.jnull JSList.nil) = stripList JSList.nil ∧
      stripUndefinedDeep JSVal.undef = JSVal.jnull) :=
  ⟨by decide, by decide,
    C6_sanitizer_null_handling ocrTextKey JSFields.nil JSList.nil (by decide) (by decide)⟩

/-- C9: anchoring an already-anchored job (anchor field holds an object,
the only shape the service ever writes) returns success carrying the
existing anchor, does not call the Ledger Anchor Client, and leaves the
record unchanged. -/
theorem C9_anchor_idempotent (r : Receipt) (fs : JSFields)
    (clientResult : Except String JSFields) (h : r.hedera_anchor = JSVal.obj fs) :
    anchorReceiptToHedera r clientResult =
      { response := Except.ok (alreadyAnchoredMsg, r.hedera_anchor)
        record := r
        clientCalledWith := none } := by
  unfold anchorReceiptToHedera
  rw [h]
  simp [JSVal.isTruthy]

/-- Witness for C9 at a concrete anchored record. -/
theorem C9_anchor_idempotent_witness :
    anchoredReceipt.hedera_anchor = JSVal.obj sampleAnchor ∧
    anchorReceiptToHedera anchoredReceipt (Except.ok sampleAnchor) =
      { response := Except.ok (alreadyAnchoredMsg, anchoredReceipt.hedera_anchor)
        record := anchoredReceipt
        clientCalledWith := none } :=
  ⟨rfl, C9_anchor_idempotent anchoredReceipt sampleAnchor (Except.ok sampleAnchor) rfl⟩

/-- C10: the anchor endpoint enforces no status precondition — for any
record with a null anchor field (whatever its status, even `processing` or
`failed`), it invokes the Ledger Anchor Client on the record's `analysis`
field (possibly null) and, on success, writes the returned anchor. -/
theorem C10_anchor_no_precondition (r : Receipt) (a : JSFields)
    (clientResult : Except String JSFields) (h : r.hedera_anchor = JSVal.jnull) :
    (anchorReceiptToHedera r clientResult).clientCalledWith = some r.analysis ∧
    anchorReceiptToHedera r (Except.ok a) =
      { response := Except.ok (anchorSuccessMsg, JSVal.obj a)
        record := { r with hedera_anchor := JSVal.obj a }
        clientCalledWith := some r.analysis } := by
  unfold anchorReceiptToHedera
  rw [h]
  simp [JSVal.isTruthy]
  cases clientResult <;> simp

/-- Witness for C10 at a still-`processing` record with `analysis = null`. -/
theorem C10_anchor_no_precondition_witness :
    processingReceipt.hedera_anchor = JSVal.jnull ∧
    processingReceipt.status = processingStatus ∧
    ((anchorReceiptToHedera processingReceipt (Except.ok sampleAnchor)).clientCalledWith =
        some processingReceipt.analysis ∧
      anchorReceiptToHedera processingReceipt (Except.ok sampleAnchor) =
        { response := Except.ok (anchorSuccessMsg, JSVal.obj sampleAnchor)
          record := { processingReceipt with hedera_anchor := JSVal.obj sampleAnchor }
          clientCalledWith := some processingReceipt.analysis }) :=
  ⟨rfl, rfl,
    C10_anchor_no_precondition processingReceipt sampleAnchor (Except.ok sampleAnchor) rfl⟩

set_option maxRecDepth 100000 in
/-- C2: evaluating the pipeline on a raw result that carries all three
named oversized fields (`heatmap`, `pixel_diff`, `ela_analysis`): the
split succeeds, the fields are absent from the summary — but, contrary to
the claim, they are also absent from the persisted sidecar at any depth:
`stripUndefinedDeep` deletes these keys both from the raw response (LAYER
1) and from the assembled sidecar payload (LAYER 5). -/
theorem C2_oversized_fields_lost :
    hasField (getField rawOversized forensicDetailsKey) heatmapKey = true ∧
    hasField (getField rawOversized forensicDetailsKey) pixelDiffKey = true ∧
    hasField (getField rawOversized forensicDetailsKey) elaAnalysisKey = true ∧
    isOkSplit (splitPipeline 0 rawOversized) = true ∧
    containsKeyDeep (sidecarOf (splitPipeline 0 rawOversized)) heatmapKey = false ∧
    containsKeyDeep (sidecarOf (splitPipeline 0 rawOversized)) pixelDiffKey = false ∧
    containsKeyDeep (sidecarOf (splitPipeline 0 rawOversized)) elaAnalysisKey = false ∧
    containsKeyDeep (mainOf (splitPipeline 0 rawOversized)) heatmapKey = false := by
  decide

/-- C3: for every analyzer result, either the split succeeds with a summary
of at most 1,048,576 serialized bytes and the atomic batch write of that
summary appears in the job's trace, or the split raises the
payload-too-large error, no summary/sidecar batch write ever occurs, and
the job ends `failed`. -/
theorem C3_size_postcondition (raw : JSVal) (pt : Int) (anc : Bool)
    (ares : Except String JSFields) :
    (∃ m s, splitPipeline pt raw = Except.ok (m, s) ∧ jsonSize m ≤ firestoreLimit ∧
      JobAction.writeBatch m s ∈ jobTrace ⟨Except.ok raw, anc, ares, pt⟩) ∨
    (∃ e, splitPipeline pt raw = Except.error e ∧
      (∀ m s, JobAction.writeBatch m s ∉ jobTrace ⟨Except.ok raw, anc, ares, pt⟩) ∧
      (jobFinal ⟨Except.ok raw, anc, ares, pt⟩).status = failedStatus) := by
  cases hsplit : splitPipeline pt raw with
  | ok ms =>
    obtain ⟨m, s⟩ := ms
    left
    refine ⟨m, s, rfl, (splitPipeline_ok hsplit).2.2, ?_⟩
    simp only [jobTrace, scanReceipt, analyzeReceiptAsync, hsplit]
    cases anc
    · simp
    · cases ares <;> simp
  | error e =>
    right
    refine ⟨e, rfl, ?_, ?_⟩
    · intro m s
      simp [jobTrace, scanReceipt, analyzeReceiptAsync, hsplit]
    · simp [jobFinal, scanReceipt, analyzeReceiptAsync, hsplit, applyAction]

/-- C4: for every job, the emitted percent values are non-decreasing, there
is exactly one terminal event, it is the last action of the trace, and the
terminal job-record write precedes it. -/
theorem C4_progress_ordering (p : AnalyzeParams) : goodTrace (jobTrace p) = true := by
  obtain ⟨ai, anc, ares, pt⟩ := p
  cases ai with
  | error e =>
    simp [jobTrace, scanReceipt, analyzeReceiptAsync, goodTrace, percentsOf,
      nondecreasing, isTerminalEvent, setsTerminalStatus]
  | ok raw =>
    cases hsplit : splitPipeline pt raw with
    | error e2 =>
      simp [jobTrace, scanReceipt, analyzeReceiptAsync, hsplit, goodTrace, percentsOf,
        nondecreasing, isTerminalEvent, setsTerminalStatus]
    | ok ms =>
      obtain ⟨m, s⟩ := ms
      cases anc
      · simp [jobTrace, scanReceipt, analyzeReceiptAsync, hsplit, goodTrace, percentsOf,
          nondecreasing, isTerminalEvent, setsTerminalStatus]
      · cases ares <;>
          simp [jobTrace, scanReceipt, analyzeReceiptAsync, hsplit, goodTrace, percentsOf,
            nondecreasing, isTerminalEvent, setsTerminalStatus]

/-- C5: every prefix of the writes a job performs leaves the record
satisfying the invariant — `completed` implies a non-null analysis summary
and no error, `failed` implies a recorded error. -/
theorem C5_record_invariant (p : AnalyzeParams) (n : Nat) :
    recordInvariant (applyActions initialReceipt ((jobWrites p).take n)) := by
  obtain ⟨ai, anc, ares, pt⟩ := p
  have hinit : recordInvariant initialReceipt :=
    ⟨fun h => absurd h (by decide), fun h => absurd h (by decide)⟩
  have hfail : ∀ (r : Receipt) (msg : String),
      recordInvariant (applyAction r (JobAction.writeFail msg)) := by
    intro r msg
    refine ⟨fun h => absurd (show failedStatus = completedStatus from h) (by decide),
      fun _ => by simp [applyAction]⟩
  cases ai with
  | error e =>
    have hw : jobWrites ⟨Except.error e, anc, ares, pt⟩ =
        [JobAction.writeCreate initialReceipt,
         JobAction.writeFail (getUserFriendlyError e)] := by
      simp [jobWrites, jobTrace, scanReceipt, analyzeReceiptAsync, isWriteAction]
    rw [hw]
    match n with
    | 0 => exact hinit
    | 1 => exact hinit
    | nn + 2 =>
      simp only [List.take_succ_cons, List.take_nil]
      exact hfail _ _
  | ok raw =>
    cases hsplit : splitPipeline pt raw with
    | error e2 =>
      have hw : jobWrites ⟨Except.ok raw, anc, ares, pt⟩ =
          [JobAction.writeCreate initialReceipt,
           JobAction.writeFail (getUserFriendlyError e2)] := by
        simp [jobWrites, jobTrace, scanReceipt, analyzeReceiptAsync, hsplit, isWriteAction]
      rw [hw]
      match n with
      | 0 => exact hinit
      | 1 => exact hinit
      | nn + 2 =>
        simp only [List.take_succ_cons, List.take_nil]
        exact hfail _ _
    | ok ms =>
      obtain ⟨m, s⟩ := ms
      obtain ⟨hm, hs, _⟩ := splitPipeline_ok hsplit
      subst hm
      subst hs
      obtain ⟨hst, han, herr, hhed⟩ := mergeMain_facts initialReceipt pt raw
      have hr1 : recordInvariant (mergeMainReceipt initialReceipt (cleanedMainOf pt raw)) := by
        refine ⟨fun _ => ⟨han, ?_⟩, fun h => ?_⟩
        · rw [herr]
          rfl
        · rw [hst] at h
          exact absurd h (by decide)
      have hr3 : ∀ a : JSFields,
          recordInvariant (applyAction (mergeMainReceipt initialReceipt (cleanedMainOf pt raw))
            (JobAction.writeAnchor a)) := by
        intro a
        refine ⟨fun _ => ⟨han, ?_⟩, fun h => ?_⟩
        · rw [show (applyAction (mergeMainReceipt initialReceipt (cleanedMainOf pt raw))
            (JobAction.writeAnchor a)).error =
              (mergeMainReceipt initialReceipt (cleanedMainOf pt raw)).error from rfl, herr]
          rfl
        · have h2 : completedStatus = failedStatus := by
            rw [← hst]
            exact h
          exact absurd h2 (by decide)
      cases anc
      · have hw : jobWrites ⟨Except.ok raw, false, ares, pt⟩ =
            [JobAction.writeCreate initialReceipt,
             JobAction.writeBatch (cleanedMainOf pt raw) (cleanedSidecarOf raw)] := by
          simp [jobWrites, jobTrace, scanReceipt, analyzeReceiptAsync, hsplit, isWriteAction]
        rw [hw]
        match n with
        | 0 => exact hinit
        | 1 => exact hinit
        | nn + 2 =>
          simp only [List.take_succ_cons, List.take_nil]
          exact hr1
      · cases ares with
        | error e3 =>
          have hw : jobWrites ⟨Except.ok raw, true, Except.error e3, pt⟩ =
              [JobAction.writeCreate initialReceipt,
               JobAction.writeBatch (cleanedMainOf pt raw) (cleanedSidecarOf raw),
               JobAction.writeFail (getUserFriendlyError e3)] := by
            simp [jobWrites, jobTrace, scanReceipt, analyzeReceiptAsync, hsplit, isWriteAction]
          rw [hw]
          match n with
          | 0 => exact hinit
          | 1 => exact hinit
          | 2 => exact hr1
          | nn + 3 =>
            simp only [List.take_succ_cons, List.take_nil]
            exact hfail _ _
        | ok a =>
          have hw : jobWrites ⟨Except.ok raw, true, Except.ok a, pt⟩ =
              [JobAction.writeCreate initialReceipt,
               JobAction.writeBatch (cleanedMainOf pt raw) (cleanedSidecarOf raw),
               JobAction.writeAnchor a] := by
            simp [jobWrites, jobTrace, scanReceipt, analyzeReceiptAsync, hsplit, isWriteAction]
          rw [hw]
          match n with
          | 0 => exact hinit
          | 1 => exact hinit
          | 2 => exact hr1
          | nn + 3 =>
            simp only [List.take_succ_cons, List.take_nil]
            exact hr3 a

set_option maxRecDepth 100000 in
/-- C1 counterexample: on a job whose analysis and atomic persistence
succeed and whose submitter requested anchoring, forcing the Ledger Anchor
Client to fail does NOT leave `status='completed'` and `error=null`: the
generic catch block rewrites the record to `status='failed'` with the
anchoring failure as its error (the anchor field does stay null). -/
theorem C1_anchor_failure_counterexample :
    (jobFinal pAnchorFail).status = failedStatus ∧
    (jobFinal pAnchorFail).error = some hederaFailMsg ∧
    (jobFinal pAnchorFail).hedera_anchor = JSVal.jnull := by
  decide

/-- C1 amended: for every job whose analysis and atomic persistence
succeed and whose submitter requested anchoring, a failure of the Ledger
Anchor Client call lands in the pipeline's generic catch handler, which
rewrites the job to `status='failed'` with the classified anchoring error
in the `error` field, while `hedera_anchor` stays null. -/
theorem C1_anchor_failure_marks_failed (raw : JSVal) (pt : Int) (e : String)
    (m s : JSVal) (h : splitPipeline pt raw = Except.ok (m, s)) :
    (jobFinal ⟨Except.ok raw, true, Except.error e, pt⟩).status = failedStatus ∧
    (jobFinal ⟨Except.ok raw, true, Except.error e, pt⟩).error =
      some (getUserFriendlyError e) ∧
    (jobFinal ⟨Except.ok raw, true, Except.error e, pt⟩).hedera_anchor = JSVal.jnull := by
  obtain ⟨hm, hs, _⟩ := splitPipeline_ok h
  subst hm
  subst hs
  obtain ⟨hst, han, herr, hhed⟩ := mergeMain_facts initialReceipt pt raw
  have hfin : jobFinal ⟨Except.ok raw, true, Except.error e, pt⟩ =
      applyAction (mergeMainReceipt initialReceipt (cleanedMainOf pt raw))
        (JobAction.writeFail (getUserFriendlyError e)) := by
    simp [jobFinal, scanReceipt, analyzeReceiptAsync, h]
  rw [hfin]
  refine ⟨rfl, rfl, ?_⟩
  rw [show (applyAction (mergeMainReceipt initialReceipt (cleanedMainOf pt raw))
      (JobAction.writeFail (getUserFriendlyError e))).hedera_anchor =
        (mergeMainReceipt initialReceipt (cleanedMainOf pt raw)).hedera_anchor from rfl, hhed]
  rfl

set_option maxRecDepth 100000 in
/-- Witness for the amended C1 statement: a concrete successful analysis
with anchoring requested and a failing Ledger Anchor Client. -/
theorem C1_anchor_failure_marks_failed_witness :
    splitPipeline 0 rawSmall = Except.ok (cleanedMainOf 0 rawSmall, cleanedSidecarOf rawSmall) ∧
    ((jobFinal ⟨Except.ok rawSmall, true, Except.error hederaFailMsg, 0⟩).status = failedStatus ∧
      (jobFinal ⟨Except.ok rawSmall, true, Except.error hederaFailMsg, 0⟩).error =
        some (getUserFriendlyError hederaFailMsg) ∧
      (jobFinal ⟨Except.ok rawSmall, true, Except.error hederaFailMsg, 0⟩).hedera_anchor =
        JSVal.jnull) :=
  ⟨by rfl,
    C1_anchor_failure_marks_failed rawSmall 0 hederaFailMsg
      (cleanedMainOf 0 rawSmall) (cleanedSidecarOf rawSmall) (by rfl)⟩

theorem strip_arr_headNotArr (l : JSList) (h : headNotArr l = true) :
    stripUndefinedDeep (JSVal.arr l) = JSVal.arr (stripList l) := by
  cases l with
  | nil => rfl
  | cons x t =>
    cases x <;> first
      | rfl
      | (simp [headNotArr, JSVal.isArr] at h)

set_option maxRecDepth 100000 in
/-- C7 counterexample: a findings list with 6 entries, one of them `null`:
the split succeeds, but the sidecar's full copy retains only 5 entries
(the cleaning pass drops the `null` entry), so the sidecar does not hold
all of the entries as claimed. -/
theorem C7_excerpt_bound_counterexample :
    jsLen (getField (getField rawSixFindings forensicDetailsKey) forensicFindingsKey) = 6 ∧
    isOkSplit (splitPipeline 0 rawSixFindings) = true ∧
    jsLen (getField (sidecarOf (splitPipeline 0 rawSixFindings)) forensicFindingsFullKey) = 5 := by
  decide

/-- C7 amended: if the findings list has more than 5 entries, none of which
is `null`/`undefined`, and does not start with a nested array, then the
summary's copy is the serialization of exactly the (round-tripped) first 5
entries, and the sidecar's `forensic_findings_full` holds the sanitized
copy of all of them — same entry count as the input.  (Entries that are
`null`/`undefined` are dropped from the sidecar copy, per the
counterexample.) -/
theorem C7_excerpt_bound (xs : JSList) (pt : Int) (m s : JSVal)
    (hlen : 5 < xs.length)
    (hgood : noNullUndefElems xs = true)
    (hhead : headNotArr xs = true)
    (h : splitPipeline pt (rawWithFindings xs) = Except.ok (m, s)) :
    getField (getField (getField m analysisKey) forensicDetailsKey) forensicFindingsKey =
      JSVal.serialized (JSVal.arr (JSList.take 5 (jsonRoundList xs))) ∧
    jsLen (safeParse (getField (getField (getField m analysisKey) forensicDetailsKey)
      forensicFindingsKey)) = 5 ∧
    getField s forensicFindingsFullKey = JSVal.arr (stripList (jsonRoundList xs)) ∧
    jsLen (getField s forensicFindingsFullKey) = xs.length := by
  have hh2 : headNotArr (jsonRoundList xs) = true := by
    rw [headNotArr_jsonRoundList]
    exact hhead
  have hg2 : noNullUndefElems (jsonRoundList xs) = true := by
    rw [noNullUndef_jsonRoundList]
    exact hgood
  have hstep2 : step2Of (rawWithFindings xs) =
      objOf [(forensicDetailsKey,
        objOf [(forensicFindingsKey, JSVal.serialized (JSVal.arr xs))])] := by
    unfold step2Of rawWithFindings
    simp [objOf, fieldsOf, stripUndefinedDeep, stripFields, jsonRound, jsonRoundFields,
      JSVal.isTruthy, JSVal.isStr, oversizedKeys, compressKeys,
      forensicDetailsKey, forensicFindingsKey]
  have hfd0 : fd0Of (rawWithFindings xs) =
      objOf [(forensicFindingsKey, JSVal.serialized (JSVal.arr xs))] := by
    unfold fd0Of
    rw [hstep2]
    simp [getField, getField.go, jsOr, JSVal.isTruthy, objOf, fieldsOf]
  have hff : ffOf (rawWithFindings xs) = JSVal.arr (jsonRoundList xs) := by
    unfold ffOf
    rw [hfd0]
    simp [getField, getField.go, safeParse, jsonRound, jsOr, JSVal.isTruthy, objOf, fieldsOf]
  have hal : agentLogsOf (rawWithFindings xs) = arrOf [] := by
    unfold agentLogsOf
    rw [hstep2]
    simp [getField, getField.go, safeParse, jsOr, JSVal.isTruthy, objOf, fieldsOf,
      forensicDetailsKey, agentLogsKey]
  have hfp : fpOf (rawWithFindings xs) = arrOf [] := by
    unfold fpOf
    rw [hfd0]
    simp [getField, getField.go, safeParse, jsOr, JSVal.isTruthy, objOf, fieldsOf,
      forensicFindingsKey, forensicProgressKey]
  have hmEq : cleanedMainOf pt (rawWithFindings xs) = JSVal.obj (fieldsOf [
      (ocrTextKey, JSVal.str emptyString),
      (analysisKey, JSVal.obj (fieldsOf [
        (trustScoreKey, JSVal.num 0),
        (verdictKey, JSVal.str unknownVerdict),
        (issuesKey, arrOf []),
        (recommendationKey, JSVal.str emptyString),
        (merchantKey, JSVal.jnull),
        (forensicDetailsKey, JSVal.obj (fieldsOf [
          (forensicFindingsKey,
            JSVal.serialized (JSVal.arr (JSList.take 5 (jsonRoundList xs)))),
          (agentLogsKey, JSVal.serialized (arrOf [])),
          (forensicProgressKey, arrOf [])]))])),
      (processingTimeKey, JSVal.num pt),
      (statusKey, JSVal.str completedStatus)]) := by
    unfold cleanedMainOf mainPayloadOf lightForensicsOf
    rw [hstep2, hfd0, hff, hal, hfp]
    simp [getField, getField.go, jsOr, JSVal.isTruthy, JSVal.isStr, sliceFive,
      stripUndefinedDeep, stripFields, stripList, objOf, fieldsOf, arrOf, listOf,
      oversizedKeys, compressKeys, emptyString,
      ocrTextKey, analysisKey, trustScoreKey, verdictKey, issuesKey, recommendationKey,
      merchantKey, forensicDetailsKey, forensicFindingsKey, agentLogsKey,
      forensicProgressKey, processingTimeKey, statusKey, ocrConfidenceKey,
      manipulationScoreKey, metadataFlagsKey, forensicVerdictKey, forensicSummaryKey,
      suspiciousRegionsCountKey, manipulationDetectedKey, techniquesDetectedKey,
      authenticityIndicatorsKey]
  have hsEq : cleanedSidecarOf (rawWithFindings xs) = JSVal.obj (fieldsOf [
      (technicalDetailsKey, JSVal.serialized (objOf [])),
      (agentLogsKey, JSVal.serialized (arrOf [])),
      (forensicProgressKey, arrOf []),
      (forensicFindingsFullKey, JSVal.arr (stripList (jsonRoundList xs)))]) := by
    unfold cleanedSidecarOf sidecarPayloadOf tdOf hmOf pdOf
    rw [hfd0, hff, hal, hfp]
    simp [getField, getField.go, jsOr, safeParse, JSVal.isTruthy, JSVal.isStr,
      stripUndefinedDeep, stripFields, stripList, objOf, fieldsOf, arrOf, listOf,
      oversizedKeys, compressKeys, strip_arr_headNotArr _ hh2,
      heatmapKey, pixelDiffKey, technicalDetailsKey, elaAnalysisKey, agentLogsKey,
      forensicProgressKey, forensicFindingsFullKey, imageDimensionsKey, statisticsKey,
      forensicFindingsKey]
    cases hj : jsonRoundList xs with
    | nil => rfl
    | cons x t =>
      rw [hj] at hh2
      cases x <;> first
        | rfl
        | (simp [headNotArr, JSVal.isArr] at hh2)
  obtain ⟨hm, hs, _⟩ := splitPipeline_ok h
  subst hm
  subst hs
  refine ⟨?_, ?_, ?_, ?_⟩
  · rw [hmEq]
    simp [getField, getField.go, fieldsOf, ocrTextKey, analysisKey, trustScoreKey,
      verdictKey, issuesKey, recommendationKey, merchantKey, forensicDetailsKey,
      forensicFindingsKey, processingTimeKey, statusKey]
  · rw [hmEq]
    simp [getField, getField.go, fieldsOf, safeParse, jsonRound, jsLen,
      jsonRoundList_length, take_length, ocrTextKey, analysisKey, trustScoreKey,
      verdictKey, issuesKey, recommendationKey, merchantKey, forensicDetailsKey,
      forensicFindingsKey, processingTimeKey, statusKey]
    omega
  · rw [hsEq]
    simp [getField, getField.go, fieldsOf, technicalDetailsKey, agentLogsKey,
      forensicProgressKey, forensicFindingsFullKey]
  · rw [hsEq]
    simp [getField, getField.go, fieldsOf, jsLen, technicalDetailsKey, agentLogsKey,
      forensicProgressKey, forensicFindingsFullKey]
    rw [stripList_length_good _ hg2, jsonRoundList_length]

set_option maxRecDepth 100000 in
/-- Witness for the amended C7 statement at a concrete 6-entry findings
list. -/
theorem C7_excerpt_bound_witness :
    (5 < sixFindings.length ∧ noNullUndefElems sixFindings = true ∧
      headNotArr sixFindings = true ∧
      splitPipeline 0 (rawWithFindings sixFindings) =
        Except.ok (cleanedMainOf 0 (rawWithFindings sixFindings),
          cleanedSidecarOf (rawWithFindings sixFindings))) ∧
    (getField (getField (getField (cleanedMainOf 0 (rawWithFindings sixFindings)) analysisKey)
        forensicDetailsKey) forensicFindingsKey =
      JSVal.serialized (JSVal.arr (JSList.take 5 (jsonRoundList sixFindings))) ∧
      jsLen (safeParse (getField (getField (getField
        (cleanedMainOf 0 (rawWithFindings sixFindings)) analysisKey) forensicDetailsKey)
        forensicFindingsKey)) = 5 ∧
      getField (cleanedSidecarOf (rawWithFindings sixFindings)) forensicFindingsFullKey =
        JSVal.arr (stripList (jsonRoundList sixFindings)) ∧
      jsLen (getField (cleanedSidecarOf (rawWithFindings sixFindings))
        forensicFindingsFullKey) = sixFindings.length) :=
  ⟨⟨by decide, by decide, by decide, by rfl⟩,
    C7_excerpt_bound sixFindings 0 _ _ (by decide) (by decide) (by decide) (by rfl)⟩

theorem strip_ne_undef (v : JSVal) : stripUndefinedDeep v ≠ JSVal.undef := by
  cases v
  case arr xs =>
    cases xs with
    | nil => simp [stripUndefinedDeep]
    | cons x t => cases x <;> simp [stripUndefinedDeep]
  all_goals simp [stripUndefinedDeep]

theorem stripFields_cons_normal_b (k : String) (v : JSVal) (t : JSFields)
    (hv : v ≠ JSVal.undef) (h1 : oversizedKeys.contains k = false)
    (h2 : compressKeys.contains k = false) :
    stripFields (JSFields.cons k v t) = JSFields.cons k (stripUndefinedDeep v) (stripFields t) := by
  simp only [stripFields, if_neg hv, h1, h2, Bool.false_eq_true, if_false]

mutual
theorem strip_fixed : ∀ v : JSVal, fixedVal v = true → stripUndefinedDeep v = v
  | JSVal.undef, h => by simp [fixedVal] at h
  | JSVal.jnull, _ => rfl
  | JSVal.bool _, _ => rfl
  | JSVal.num _, _ => rfl
  | JSVal.str _, _ => rfl
  | JSVal.serialized _, _ => rfl
  | JSVal.arr xs, h => by
    have h12 : headNotArr xs = true ∧ fixedElems xs = true := by
      simpa [fixedVal, Bool.and_eq_true] using h
    rw [strip_arr_headNotArr xs h12.1, stripList_fixedElems xs h12.2]
  | JSVal.obj fs, h => by
    rw [show stripUndefinedDeep (JSVal.obj fs) = JSVal.obj (stripFields fs) from rfl,
      stripFields_fixed fs (by simpa [fixedVal] using h)]

theorem stripList_fixedElems : ∀ l : JSList, fixedElems l = true → stripList l = l
  | JSList.nil, _ => rfl
  | JSList.cons x t, h => by
    have hx : (x.isNullOrUndef = false ∧ fixedVal x = true) ∧ fixedElems t = true := by
      simpa [fixedElems, Bool.and_eq_true] using h
    simp [stripList, strip_isNullOrUndef, hx.1.1, strip_fixed x hx.1.2,
      stripList_fixedElems t hx.2]

theorem stripFields_fixed : ∀ fs : JSFields, fixedFields fs = true → stripFields fs = fs
  | JSFields.nil, _ => rfl
  | JSFields.cons k v t, h => by
    simp [fixedFields, Bool.and_eq_true, Bool.or_eq_true, Bool.not_eq_true'] at h
    obtain ⟨⟨hk, hor⟩, ht⟩ := h
    rcases hor with ⟨⟨hc, hs⟩, htr⟩ | ⟨⟨hc, hne⟩, hfv⟩
    · have hvne : ¬ v = JSVal.undef := by
        intro he
        subst he
        simp [JSVal.isStr] at hs
      simp [stripFields, hvne, hk, hc, htr, hs, stripFields_fixed t ht]
    · simp [stripFields, hne, hk, hc, strip_fixed v hfv, stripFields_fixed t ht]
end

mutual
theorem strip_nice_fixed : ∀ v : JSVal, niceVal v = true →
    fixedVal (stripUndefinedDeep v) = true
  | JSVal.undef, _ => rfl
  | JSVal.jnull, _ => rfl
  | JSVal.bool _, _ => rfl
  | JSVal.num _, _ => rfl
  | JSVal.str _, _ => rfl
  | JSVal.serialized _, _ => rfl
  | JSVal.obj fs, h => by
    have h' : niceFields fs = true := by simpa [niceVal] using h
    simpa [stripUndefinedDeep, fixedVal] using stripFields_nice_fixed fs h'
  | JSVal.arr xs, h => by
    have h' : niceList xs = true := by simpa [niceVal] using h
    cases xs with
    | nil => rfl
    | cons x t =>
      have hx : (x.isNullOrUndef = false ∧ niceVal x = true) ∧ niceList t = true := by
        simpa [niceList, Bool.and_eq_true] using h'
      cases x with
      | undef => simp [JSVal.isNullOrUndef] at hx
      | jnull => simp [JSVal.isNullOrUndef] at hx
      | arr ys => rfl
      | bool b =>
        simp [stripUndefinedDeep, stripList, JSVal.isNullOrUndef, fixedVal, headNotArr,
          JSVal.isArr, fixedElems, stripList_nice_fixedElems t hx.2]
      | num n =>
        simp [stripUndefinedDeep, stripList, JSVal.isNullOrUndef, fixedVal, headNotArr,
          JSVal.isArr, fixedElems, stripList_nice_fixedElems t hx.2]
      | str s2 =>
        simp [stripUndefinedDeep, stripList, JSVal.isNullOrUndef, fixedVal, headNotArr,
          JSVal.isArr, fixedElems, stripList_nice_fixedElems t hx.2]
      | serialized w =>
        simp [stripUndefinedDeep, stripList, JSVal.isNullOrUndef, fixedVal, headNotArr,
          JSVal.isArr, fixedElems, stripList_nice_fixedElems t hx.2]
      | obj fs2 =>
        have h2 : niceFields fs2 = true := by simpa [niceVal] using hx.1.2
        simp [stripUndefinedDeep, stripList, JSVal.isNullOrUndef, fixedVal, headNotArr,
          JSVal.isArr, fixedElems, stripFields_nice_fixed fs2 h2,
          stripList_nice_fixedElems t hx.2]

theorem stripList_nice_fixedElems : ∀ l : JSList, niceList l = true →
    fixedElems (stripList l) = true
  | JSList.nil, _ => rfl
  | JSList.cons x t, h => by
    have hx : (x.isNullOrUndef = false ∧ niceVal x = true) ∧ niceList t = true := by
      simpa [niceList, Bool.and_eq_true] using h
    simp [stripList, strip_isNullOrUndef, hx.1.1, fixedElems, strip_nice_fixed x hx.1.2,
      stripList_nice_fixedElems t hx.2]

theorem stripFields_nice_fixed : ∀ fs : JSFields, niceFields fs = true →
    fixedFields (stripFields fs) = true
  | JSFields.nil, _ => rfl
  | JSFields.cons k v t, h => by
    have hv : niceVal v = true ∧ niceFields t = true := by
      simpa [niceFields, Bool.and_eq_true] using h
    by_cases hundef : v = JSVal.undef
    · subst hundef
      simp [stripFields, stripFields_nice_fixed t hv.2]
    · by_cases hover : k ∈ oversizedKeys
      · simp [stripFields, hundef, hover, stripFields_nice_fixed t hv.2]
      · by_cases hcomp : k ∈ compressKeys
        · by_cases htr : v.isTruthy = true
          · by_cases hstr : v.isStr = true
            · simp [stripFields, hundef, hover, hcomp, htr, hstr, fixedFields,
                stripFields_nice_fixed t hv.2]
            · have hstr2 : v.isStr = false := by simpa using hstr
              rw [show stripFields (JSFields.cons k v t) =
                  JSFields.cons k (JSVal.serialized v) (stripFields t) from by
                simp [stripFields, hundef, hover, hcomp, htr, hstr2]]
              simp [fixedFields, hover, hcomp, JSVal.isStr, JSVal.isTruthy,
                stripFields_nice_fixed t hv.2]
          · have htr2 : v.isTruthy = false := by simpa using htr
            simp [stripFields, hundef, hover, hcomp, htr2, stripFields_nice_fixed t hv.2]
        · simp [stripFields, hundef, hover, hcomp, fixedFields, strip_ne_undef v,
            strip_nice_fixed v hv.1, stripFields_nice_fixed t hv.2]
end

/-- C8 counterexample: the sanitizer is not idempotent.  On
`[null, [1]]`, the first pass drops the `null` and returns `[[1]]`; the
second pass sees an array whose first element is an array and stringifies
it, so the results differ. -/
theorem C8_idempotence_counterexample :
    stripUndefinedDeep (stripUndefinedDeep badSample) ≠ stripUndefinedDeep badSample := by
  decide

/-- C8 amended: the sanitizer is idempotent on every input none of whose
arrays contain a `null` or `undefined` element (array cleaning can
otherwise move a nested array into the first position, which the second
pass stringifies). -/
theorem C8_idempotent_on_nice (x : JSVal) (h : niceVal x = true) :
    stripUndefinedDeep (stripUndefinedDeep x) = stripUndefinedDeep x :=
  strip_fixed (stripUndefinedDeep x) (strip_nice_fixed x h)

/-- Witness for the amended C8 statement at a concrete nested input. -/
theorem C8_idempotent_on_nice_witness :
    niceVal niceSample = true ∧
    stripUndefinedDeep (stripUndefinedDeep niceSample) = stripUndefinedDeep niceSample :=
  ⟨by decide, C8_idempotent_on_nice niceSample (by decide)⟩
